import Mathlib

/-!
Verification of the rainyday BitTorrent peer-wire codec, a shallow
embedding of src/protocol.rs.

Bytes are modelled as natural numbers (a genuine wire byte satisfies
b < 256); byte sequences are lists.  Rust u32 arithmetic is modelled on
Nat with explicit truncation by 2 ^ 32 exactly where the source performs
an `as u32` cast.  Fallible conversions (the TryFrom impls) return
`Except DecodeError`.  The handshake decoder contains unguarded slice
operations, so its embedding returns `Option (Except ...)`, `none`
standing for a Rust panic (out-of-range slice, or the panicking
`AsciiChar::new` applied to a non-ASCII byte).
-/

deriving instance DecidableEq for Except

namespace Rainyday

/-- Wire byte sequences; `type Bytes = Vec<u8>` in the source. -/
abbrev Bytes := List Nat

/-- Big-endian serialisation of a u32 value (`u32::to_be_bytes`). -/
def u32ToBeBytes (x : Nat) : List Nat :=
  [x / 2 ^ 24 % 256, x / 2 ^ 16 % 256, x / 2 ^ 8 % 256, x % 256]

/-- Big-endian deserialisation of four bytes (`u32::from_be_bytes`). -/
def u32FromBeBytes (b0 b1 b2 b3 : Nat) : Nat :=
  b0 * 2 ^ 24 + b1 * 2 ^ 16 + b2 * 2 ^ 8 + b3

/-- The error enumeration of the codec (`enum DecodeError`). -/
inductive DecodeError
  | TooLong
  | TooShort
  | WrongLength
  | InvalidMessageType
deriving DecidableEq

/-- Payload of a Have message (`struct HavePayload`); `index` is a u32. -/
structure HavePayload where
  index : Nat
deriving DecidableEq

/-- Payload of a Bitfield message (`struct BitfieldPayload`). -/
structure BitfieldPayload where
  bitfield : List Nat
deriving DecidableEq

/-- Payload of a Request message (`struct RequestPayload`); all fields u32. -/
structure RequestPayload where
  index : Nat
  begin : Nat
  length : Nat
deriving DecidableEq

/-- Payload of a Piece message (`struct PiecePayload`). -/
structure PiecePayload where
  index : Nat
  begin : Nat
  piece : List Nat
deriving DecidableEq

/-- Payload of a Cancel message (`struct CancelPayload`); all fields u32. -/
structure CancelPayload where
  index : Nat
  begin : Nat
  length : Nat
deriving DecidableEq

/-- Mirrors `impl TryFrom<Bytes> for HavePayload`: the payload must be exactly
4 bytes (`size_of::<u32>()`), read big-endian. -/
def HavePayload.tryFrom (value : Bytes) : Except DecodeError HavePayload :=
  if value.length > 4 then .error .TooLong
  else if value.length < 4 then .error .TooShort
  else .ok ⟨u32FromBeBytes (value.getD 0 0) (value.getD 1 0)
      (value.getD 2 0) (value.getD 3 0)⟩

/-- Mirrors `impl From<HavePayload> for Bytes`. -/
def HavePayload.toBytes (value : HavePayload) : Bytes :=
  u32ToBeBytes value.index

/-- Mirrors `impl TryFrom<Bytes> for BitfieldPayload`: always succeeds, the
bytes are taken verbatim. -/
def BitfieldPayload.tryFrom (value : Bytes) :
    Except DecodeError BitfieldPayload :=
  .ok ⟨value⟩

/-- Mirrors `impl From<BitfieldPayload> for Bytes`. -/
def BitfieldPayload.toBytes (value : BitfieldPayload) : Bytes :=
  value.bitfield

/-- Mirrors `impl TryFrom<Bytes> for RequestPayload`: exactly `3 * size_of::<u32>()`
= 12 bytes, three big-endian u32 fields. -/
def RequestPayload.tryFrom (value : Bytes) :
    Except DecodeError RequestPayload :=
  if value.length > 12 then .error .TooLong
  else if value.length < 12 then .error .TooShort
  else .ok
    ⟨u32FromBeBytes (value.getD 0 0) (value.getD 1 0)
        (value.getD 2 0) (value.getD 3 0),
      u32FromBeBytes (value.getD 4 0) (value.getD 5 0)
        (value.getD 6 0) (value.getD 7 0),
      u32FromBeBytes (value.getD 8 0) (value.getD 9 0)
        (value.getD 10 0) (value.getD 11 0)⟩

/-- Mirrors `impl From<RequestPayload> for Bytes`. -/
def RequestPayload.toBytes (value : RequestPayload) : Bytes :=
  u32ToBeBytes value.index ++ u32ToBeBytes value.begin ++
    u32ToBeBytes value.length

/-- Mirrors `impl TryFrom<Bytes> for PiecePayload`.  NOTE: the source bounds the
payload by `3 * size_of::<u32>()` = 12 bytes on BOTH sides, exactly as
for Request; the `piece` field is `value[8..]`, hence always the last
4 bytes of a 12-byte payload. -/
def PiecePayload.tryFrom (value : Bytes) : Except DecodeError PiecePayload :=
  if value.length > 12 then .error .TooLong
  else if value.length < 12 then .error .TooShort
  else .ok
    ⟨u32FromBeBytes (value.getD 0 0) (value.getD 1 0)
        (value.getD 2 0) (value.getD 3 0),
      u32FromBeBytes (value.getD 4 0) (value.getD 5 0)
        (value.getD 6 0) (value.getD 7 0),
      value.drop 8⟩

/-- Mirrors `impl From<PiecePayload> for Bytes`. -/
def PiecePayload.toBytes (value : PiecePayload) : Bytes :=
  u32ToBeBytes value.index ++ u32ToBeBytes value.begin ++ value.piece

/-- Mirrors `impl TryFrom<Bytes> for CancelPayload`: identical shape to Request. -/
def CancelPayload.tryFrom (value : Bytes) :
    Except DecodeError CancelPayload :=
  if value.length > 12 then .error .TooLong
  else if value.length < 12 then .error .TooShort
  else .ok
    ⟨u32FromBeBytes (value.getD 0 0) (value.getD 1 0)
        (value.getD 2 0) (value.getD 3 0),
      u32FromBeBytes (value.getD 4 0) (value.getD 5 0)
        (value.getD 6 0) (value.getD 7 0),
      u32FromBeBytes (value.getD 8 0) (value.getD 9 0)
        (value.getD 10 0) (value.getD 11 0)⟩

/-- Mirrors `impl From<CancelPayload> for Bytes`. -/
def CancelPayload.toBytes (value : CancelPayload) : Bytes :=
  u32ToBeBytes value.index ++ u32ToBeBytes value.begin ++
    u32ToBeBytes value.length

/-- Mirrors `enum PeerMessage`: the nine message variants. -/
inductive PeerMessage
  | Choke
  | Unchoke
  | Interested
  | NotInterested
  | Have (p : HavePayload)
  | Bitfield (p : BitfieldPayload)
  | Request (p : RequestPayload)
  | Piece (p : PiecePayload)
  | Cancel (p : CancelPayload)
deriving DecidableEq

/-- Mirrors `impl TryFrom<Bytes> for PeerMessage`: length-prefixed frame decode.
Mirrors the source exactly: the minimum-size check, the big-endian length
field read from bytes 0..3 compared against the total size, the
surplus-byte check for the bodyless ids 0..3, and dispatch on the type-id
byte at offset 4, handing `value[5..]` to the payload decoder. -/
def PeerMessage.tryFrom (value : Bytes) : Except DecodeError PeerMessage :=
  if value.length < 5 then .error .TooShort
  else
    let length := u32FromBeBytes (value.getD 0 0) (value.getD 1 0)
      (value.getD 2 0) (value.getD 3 0)
    if value.length ≠ length + 4 then .error .WrongLength
    else
      let id := value.getD 4 0
      if id ≤ 3 ∧ value.length > 5 then .error .TooLong
      else
        match id with
        | 0 => .ok .Choke
        | 1 => .ok .Unchoke
        | 2 => .ok .Interested
        | 3 => .ok .NotInterested
        | 4 => (HavePayload.tryFrom (value.drop 5)).map .Have
        | 5 => (BitfieldPayload.tryFrom (value.drop 5)).map .Bitfield
        | 6 => (RequestPayload.tryFrom (value.drop 5)).map .Request
        | 7 => (PiecePayload.tryFrom (value.drop 5)).map .Piece
        | 8 => (CancelPayload.tryFrom (value.drop 5)).map .Cancel
        | _ => .error .InvalidMessageType

/-- Mirrors `impl From<PeerMessage> for Bytes`: frame encode.  Each case fixes
`(length, id, payload)` as in the source; for Bitfield and Piece the
length field is `1 + len as u32` resp. `9 + len as u32`, i.e. computed
with u32 wrap-around, modelled by explicit reduction mod `2 ^ 32`. -/
def PeerMessage.toBytes (value : PeerMessage) : Bytes :=
  let fields : Nat × Nat × Bytes :=
    match value with
    | .Choke => (1, 0, [])
    | .Unchoke => (1, 1, [])
    | .Interested => (1, 2, [])
    | .NotInterested => (1, 3, [])
    | .Have p => (5, 4, p.toBytes)
    | .Bitfield p =>
        ((1 + p.bitfield.length % 2 ^ 32) % 2 ^ 32, 5, p.toBytes)
    | .Request p =>
        (13, 6,
          u32ToBeBytes p.index ++ u32ToBeBytes p.begin ++
            u32ToBeBytes p.length)
    | .Piece p =>
        ((9 + p.piece.length % 2 ^ 32) % 2 ^ 32, 7,
          u32ToBeBytes p.index ++ u32ToBeBytes p.begin ++ p.piece)
    | .Cancel p =>
        (13, 8,
          u32ToBeBytes p.index ++ u32ToBeBytes p.begin ++
            u32ToBeBytes p.length)
  u32ToBeBytes fields.1 ++ [fields.2.1] ++ fields.2.2

/-- Mirrors `struct HandshakeMessage`. -/
structure HandshakeMessage where
  info_hash : List Nat
  peer_id : List Nat
deriving DecidableEq

/-- The 19 ASCII bytes of the protocol-name literal. -/
def pstrBytes : List Nat :=
  [0x42, 0x69, 0x74, 0x54, 0x6f, 0x72, 0x72, 0x65, 0x6e, 0x74, 0x20,
    0x70, 0x72, 0x6f, 0x74, 0x6f, 0x63, 0x6f, 0x6c]

/-- Mirrors `impl From<HandshakeMessage> for Bytes`: the fixed 28-byte preamble
(length byte 19, protocol name, 8 zero reserved bytes) followed by both
fields verbatim, with no size validation. -/
def HandshakeMessage.toBytes (value : HandshakeMessage) : Bytes :=
  [19] ++ pstrBytes ++ List.replicate 8 0 ++ value.info_hash ++
    value.peer_id

/-- Mirrors `impl TryFrom<Bytes> for HandshakeMessage`.  After the exact-68
length check the source performs three slices driven by the UNVALIDATED
first byte `pstrlen`: `value[4..pstrlen]` (whose bytes are then fed to
the panicking `AsciiChar::new`, requiring them to be ASCII),
`value[info_hash_start..peer_id_start]` and `value[peer_id_start..]`.
Each can panic; a panic is modelled as `none`, in source evaluation
order. -/
def HandshakeMessage.tryFrom (value : Bytes) :
    Option (Except DecodeError HandshakeMessage) :=
  if value.length < 68 then some (.error .TooShort)
  else if value.length > 68 then some (.error .TooLong)
  else
    let pstrlen := value.getD 0 0
    let info_hash_start := 1 + pstrlen + 8
    let peer_id_start := info_hash_start + 20
    if 4 ≤ pstrlen ∧ pstrlen ≤ value.length then
      if ((value.drop 4).take (pstrlen - 4)).all (fun b => b < 128) then
        if peer_id_start ≤ value.length then
          some (.ok
            ⟨(value.drop info_hash_start).take 20,
              value.drop peer_id_start⟩)
        else none
      else none
    else none

/- Sanity anchors: the concrete vectors of the Rust unit tests, checked
against the embedding. -/

theorem sanity_decode_choke :
    PeerMessage.tryFrom [0x00, 0x00, 0x00, 0x01, 0x00] = .ok .Choke := by
  decide

theorem sanity_decode_bad_id :
    PeerMessage.tryFrom [0x00, 0x00, 0x00, 0x01, 0xff] =
      .error .InvalidMessageType := by
  decide

theorem sanity_decode_bad_length :
    PeerMessage.tryFrom [0x00, 0x00, 0x00, 0xff, 0x00] =
      .error .WrongLength := by
  decide

theorem sanity_decode_surplus :
    PeerMessage.tryFrom
        [0x00, 0x00, 0x00, 0x08, 0x00, 0x00, 0x00, 0x00, 0x00, 0x00,
          0x00, 0x00] = .error .TooLong := by
  decide

theorem sanity_decode_deficit :
    PeerMessage.tryFrom [0x00, 0x00, 0x00, 0x00] = .error .TooShort := by
  decide

theorem sanity_decode_have :
    PeerMessage.tryFrom [0x00, 0x00, 0x00, 0x05, 0x04, 0x00, 0x00, 0x00,
      0xff] = .ok (.Have ⟨255⟩) := by
  decide

theorem sanity_decode_request :
    PeerMessage.tryFrom
        [0x00, 0x00, 0x00, 0x0d, 0x06, 0x00, 0x00, 0x00, 0x21, 0x00,
          0x00, 0x08, 0x00, 0x00, 0x00, 0x01, 0x00] =
      .ok (.Request ⟨33, 2048, 256⟩) := by
  decide

theorem sanity_decode_piece :
    PeerMessage.tryFrom
        [0x00, 0x00, 0x00, 0x0d, 0x07, 0x00, 0x00, 0x00, 0x21, 0x00,
          0x00, 0x08, 0x00, 0x00, 0x00, 0x01, 0x00] =
      .ok (.Piece ⟨33, 2048, [0x00, 0x00, 0x01, 0x00]⟩) := by
  decide

theorem sanity_encode_bitfield :
    PeerMessage.toBytes
        (.Bitfield ⟨[0xca, 0xfe, 0xbe, 0xef, 0xff, 0xff, 0xff, 0xf0]⟩) =
      [0x00, 0x00, 0x00, 0x09, 0x05, 0xca, 0xfe, 0xbe, 0xef, 0xff, 0xff,
        0xff, 0xf0] := by
  decide

theorem sanity_decode_handshake :
    HandshakeMessage.tryFrom
        (0x13 :: (pstrBytes ++ List.replicate 8 0 ++
          List.replicate 20 1 ++ List.replicate 20 2)) =
      some (.ok ⟨List.replicate 20 1, List.replicate 20 2⟩) := by
  decide

theorem sanity_encode_handshake :
    HandshakeMessage.toBytes ⟨List.replicate 20 1, List.replicate 20 2⟩ =
      0x13 :: (pstrBytes ++ List.replicate 8 0 ++
        List.replicate 20 1 ++ List.replicate 20 2) := by
  decide

/- Arithmetic helper lemmas about the big-endian u32 codec. -/

theorem u32FromBeBytes_u32ToBeBytes (x : Nat) (h : x < 2 ^ 32) :
    u32FromBeBytes (x / 2 ^ 24 % 256) (x / 2 ^ 16 % 256) (x / 2 ^ 8 % 256)
      (x % 256) = x := by
  simp only [u32FromBeBytes]
  omega

theorem u32FromBeBytes_lt (b0 b1 b2 b3 : Nat) (h0 : b0 < 256)
    (h1 : b1 < 256) (h2 : b2 < 256) (h3 : b3 < 256) :
    u32FromBeBytes b0 b1 b2 b3 < 2 ^ 32 := by
  simp only [u32FromBeBytes]
  omega

theorem u32ToBeBytes_u32FromBeBytes (b0 b1 b2 b3 : Nat) (h0 : b0 < 256)
    (h1 : b1 < 256) (h2 : b2 < 256) (h3 : b3 < 256) :
    u32ToBeBytes (u32FromBeBytes b0 b1 b2 b3) = [b0, b1, b2, b3] := by
  simp only [u32ToBeBytes, u32FromBeBytes, List.cons.injEq, and_true]
  refine ⟨by omega, by omega, by omega, by omega⟩

/- Helper: successful handshake decode, characterised. -/

theorem handshake_tryFrom_ok (bs : Bytes) (h68 : bs.length = 68)
    (hp4 : 4 ≤ bs.getD 0 0) (hp39 : bs.getD 0 0 ≤ 39)
    (hascii : ((bs.drop 4).take (bs.getD 0 0 - 4)).all
      (fun b => b < 128) = true) :
    HandshakeMessage.tryFrom bs =
      some (.ok ⟨(bs.drop (9 + bs.getD 0 0)).take 20,
        bs.drop (29 + bs.getD 0 0)⟩) := by
  have e1 : 1 + bs.getD 0 0 + 8 = 9 + bs.getD 0 0 := by omega
  have e2 : 1 + bs.getD 0 0 + 8 + 20 = 29 + bs.getD 0 0 := by omega
  simp only [HandshakeMessage.tryFrom, e1, e2]
  rw [if_neg (by omega), if_neg (by omega),
    if_pos ⟨hp4, by omega⟩, if_pos hascii, if_pos (by omega),
    show 9 + bs.getD 0 0 + 20 = 29 + bs.getD 0 0 from by omega]

/-- C10 counterexample: a HandshakeMessage with a 19-byte info_hash and
a 21-byte peer_id also encodes to exactly 68 bytes, refuting the clause
that the output is 68 bytes ONLY when both fields are 20 bytes. -/
theorem handshake_encode_total_counterexample :
    (HandshakeMessage.toBytes
      ⟨List.replicate 19 1, List.replicate 21 2⟩).length = 68 ∧
    (List.replicate 19 1).length ≠ 20 ∧
    (List.replicate 21 2).length ≠ 20 := by
  refine ⟨by decide, by decide, by decide⟩

/-- C10 (amended): handshake encode is total and performs no size
validation: for every HandshakeMessage, including one whose info_hash
or peer_id is not 20 bytes, it emits the fixed 28-byte preamble (length
byte 19, protocol name, 8 reserved zero bytes) followed by both fields
verbatim, hence exactly 28 + info_hash.length + peer_id.length bytes —
so the output is 68 bytes exactly when the two field lengths sum to 40,
which the 20-plus-20 split satisfies but not uniquely. -/
theorem handshake_encode_total (value : HandshakeMessage) :
    HandshakeMessage.toBytes value =
      [19, 0x42, 0x69, 0x74, 0x54, 0x6f, 0x72, 0x72, 0x65, 0x6e, 0x74,
        0x20, 0x70, 0x72, 0x6f, 0x74, 0x6f, 0x63, 0x6f, 0x6c, 0, 0, 0,
        0, 0, 0, 0, 0] ++ value.info_hash ++ value.peer_id ∧
    (HandshakeMessage.toBytes value).length =
      28 + value.info_hash.length + value.peer_id.length ∧
    ((HandshakeMessage.toBytes value).length = 68 ↔
      value.info_hash.length + value.peer_id.length = 40) := by
  have hlen : (HandshakeMessage.toBytes value).length =
      28 + value.info_hash.length + value.peer_id.length := by
    simp [HandshakeMessage.toBytes, pstrBytes]
    omega
  refine ⟨?_, hlen, ?_⟩
  · simp [HandshakeMessage.toBytes, pstrBytes, List.replicate]
  · rw [hlen]
    omega

/-- C8: for 20-byte info_hash and peer_id, handshake encode produces
exactly 68 bytes, laid out as the byte 19, the ASCII protocol name, 8
zero bytes, the info hash and the peer id; decoding that output
reproduces the original message. -/
theorem handshake_encode_layout_roundtrip (ih pid : List Nat)
    (hih : ih.length = 20) (hpid : pid.length = 20) :
    HandshakeMessage.toBytes ⟨ih, pid⟩ =
      [19, 0x42, 0x69, 0x74, 0x54, 0x6f, 0x72, 0x72, 0x65, 0x6e, 0x74,
        0x20, 0x70, 0x72, 0x6f, 0x74, 0x6f, 0x63, 0x6f, 0x6c, 0, 0, 0,
        0, 0, 0, 0, 0] ++ ih ++ pid ∧
    (HandshakeMessage.toBytes ⟨ih, pid⟩).length = 68 ∧
    HandshakeMessage.tryFrom (HandshakeMessage.toBytes ⟨ih, pid⟩) =
      some (.ok ⟨ih, pid⟩) := by
  have hb : HandshakeMessage.toBytes ⟨ih, pid⟩ =
      [19, 0x42, 0x69, 0x74, 0x54, 0x6f, 0x72, 0x72, 0x65, 0x6e, 0x74,
        0x20, 0x70, 0x72, 0x6f, 0x74, 0x6f, 0x63, 0x6f, 0x6c, 0, 0, 0,
        0, 0, 0, 0, 0] ++ ih ++ pid := by
    simp [HandshakeMessage.toBytes, pstrBytes, List.replicate]
  have hlen : (HandshakeMessage.toBytes ⟨ih, pid⟩).length = 68 := by
    rw [hb]
    simp [hih, hpid]
  refine ⟨hb, hlen, ?_⟩
  rw [hb] at hlen ⊢
  rw [handshake_tryFrom_ok _ hlen (by simp) (by simp) (by rfl)]
  have hget :
      ([19, 0x42, 0x69, 0x74, 0x54, 0x6f, 0x72, 0x72, 0x65, 0x6e, 0x74,
        0x20, 0x70, 0x72, 0x6f, 0x74, 0x6f, 0x63, 0x6f, 0x6c, 0, 0, 0,
        0, 0, 0, 0, 0] ++ ih ++ pid).getD 0 0 = 19 := by simp
  rw [hget]
  simp only [List.append_assoc, List.cons_append, List.nil_append,
    List.drop_succ_cons, List.drop_zero, Option.some.injEq]
  rw [← hih, List.take_left, List.drop_left]

/-- Witness for C8 at info_hash = 20 bytes 0x01, peer_id = 20 bytes 0x02. -/
theorem handshake_encode_layout_roundtrip_witness :
    (HandshakeMessage.toBytes
      ⟨List.replicate 20 1, List.replicate 20 2⟩).length = 68 ∧
    HandshakeMessage.tryFrom (HandshakeMessage.toBytes
        ⟨List.replicate 20 1, List.replicate 20 2⟩) =
      some (.ok ⟨List.replicate 20 1, List.replicate 20 2⟩) :=
  (handshake_encode_layout_roundtrip (List.replicate 20 1)
    (List.replicate 20 2) (by decide) (by decide)).2

/-- C3 (code evaluated at the failing input): the handshake decoder of
the source panics on the 68-byte all-zero input — the protocol-name
length byte is 0, so the slice `value[4..0]` has start greater than end.
The embedding maps the panic to `none` instead of a typed error. -/
theorem handshake_decode_panics_on_zero_pstrlen :
    HandshakeMessage.tryFrom (List.replicate 68 0) = none := by
  decide

/-- C4 counterexample: a 68-byte input whose first byte is 0xff does NOT
decode successfully, contradicting the claim that any exactly-68-byte
input succeeds regardless of the first byte: the protocol-name slice
`value[4..255]` runs past the end of the 68-byte input and the source
panics (none). -/
theorem handshake_decode_68_counterexample :
    HandshakeMessage.tryFrom (0xff :: List.replicate 67 0) = none := by
  decide

/-- C4 (amended): handshake decode fails TooShort below 68 bytes and
TooLong above 68 bytes; an exactly-68-byte input succeeds exactly when
its first byte p lies in [4, 39] and bytes 4..p-1 are ASCII: then the
info hash is the 20 bytes at offset 1 + p + 8 and the peer id is the
remaining 39 - p bytes; for every 68-byte input violating one of those
conditions the source panics (none). -/
theorem handshake_decode_characterisation (bs : Bytes) :
    (bs.length < 68 →
      HandshakeMessage.tryFrom bs = some (.error .TooShort)) ∧
    (68 < bs.length →
      HandshakeMessage.tryFrom bs = some (.error .TooLong)) ∧
    (bs.length = 68 → 4 ≤ bs.getD 0 0 → bs.getD 0 0 ≤ 39 →
      ((bs.drop 4).take (bs.getD 0 0 - 4)).all (fun b => b < 128) = true →
      HandshakeMessage.tryFrom bs =
        some (.ok ⟨(bs.drop (9 + bs.getD 0 0)).take 20,
          bs.drop (29 + bs.getD 0 0)⟩)) ∧
    (bs.length = 68 →
      ¬(4 ≤ bs.getD 0 0 ∧ bs.getD 0 0 ≤ 39 ∧
        ((bs.drop 4).take (bs.getD 0 0 - 4)).all
          (fun b => b < 128) = true) →
      HandshakeMessage.tryFrom bs = none) := by
  refine ⟨fun h => ?_, fun h => ?_, fun h68 hp4 hp39 hascii => ?_,
    fun h68 hno => ?_⟩
  · simp only [HandshakeMessage.tryFrom]
    rw [if_pos h]
  · simp only [HandshakeMessage.tryFrom]
    rw [if_neg (by omega), if_pos h]
  · exact handshake_tryFrom_ok bs h68 hp4 hp39 hascii
  · simp only [HandshakeMessage.tryFrom]
    rw [if_neg (by omega), if_neg (by omega)]
    by_cases h1 : 4 ≤ bs.getD 0 0 ∧ bs.getD 0 0 ≤ bs.length
    · by_cases h2 : ((bs.drop 4).take (bs.getD 0 0 - 4)).all
          (fun b => b < 128) = true
      · have hp : ¬(bs.getD 0 0 ≤ 39) := fun hle => hno ⟨h1.1, hle, h2⟩
        rw [if_pos h1, if_pos h2, if_neg (by omega)]
      · rw [if_pos h1, if_neg h2]
    · rw [if_neg h1]

/-- Witness for C4 at one too-short, one too-long, one valid and one
panicking (first byte 40) input. -/
theorem handshake_decode_characterisation_witness :
    HandshakeMessage.tryFrom (List.replicate 67 0) =
      some (.error .TooShort) ∧
    HandshakeMessage.tryFrom (List.replicate 69 0) =
      some (.error .TooLong) ∧
    HandshakeMessage.tryFrom (19 :: List.replicate 67 0) =
      some (.ok ⟨List.replicate 20 0, List.replicate 20 0⟩) ∧
    HandshakeMessage.tryFrom (40 :: List.replicate 67 0) = none := by
  refine ⟨(handshake_decode_characterisation _).1 (by decide),
    (handshake_decode_characterisation _).2.1 (by decide), ?_,
    (handshake_decode_characterisation _).2.2.2 (by decide)
      (by decide)⟩
  have h := (handshake_decode_characterisation
    (19 :: List.replicate 67 0)).2.2.1 (by decide) (by decide) (by decide)
    (by decide)
  exact h.trans (by decide)

/-- C5 counterexample: the 68-byte input with first byte 4 and the rest
zero decodes successfully, but the resulting peer_id has 35 bytes, not
20 — decode success does not guarantee the 20-byte field invariant. -/
theorem handshake_invariant_counterexample :
    HandshakeMessage.tryFrom (4 :: List.replicate 67 0) =
      some (.ok ⟨List.replicate 20 0, List.replicate 35 0⟩) ∧
    (List.replicate 35 0).length ≠ 20 := by
  constructor
  · decide
  · decide

/-- C5 (amended): every successful handshake decode happens on an
exactly-68-byte input whose first byte pstrlen lies in [4, 39]; the
decoded info_hash is always exactly 20 bytes, while the decoded peer_id
has exactly 39 - pstrlen bytes, hence is 20 bytes if and only if the
first byte is 19. -/
theorem handshake_decoded_field_lengths (bs : Bytes)
    (m : HandshakeMessage)
    (h : HandshakeMessage.tryFrom bs = some (.ok m)) :
    m.info_hash.length = 20 ∧ m.peer_id.length = 39 - bs.getD 0 0 ∧
      bs.length = 68 ∧ 4 ≤ bs.getD 0 0 ∧ bs.getD 0 0 ≤ 39 ∧
      (m.peer_id.length = 20 ↔ bs.getD 0 0 = 19) := by
  simp only [HandshakeMessage.tryFrom] at h
  split at h
  · simp at h
  · split at h
    · simp at h
    · split at h
      · split at h
        · split at h
          · simp only [Option.some.injEq, Except.ok.injEq] at h
            subst h
            simp only [List.length_take, List.length_drop]
            omega
          · simp at h
        · simp at h
      · simp at h

/-- Witness for C5 at the standard well-formed handshake bytes. -/
theorem handshake_decoded_field_lengths_witness :
    (HandshakeMessage.info_hash
        ⟨List.replicate 20 1, List.replicate 20 2⟩).length = 20 ∧
    (HandshakeMessage.peer_id
        ⟨List.replicate 20 1, List.replicate 20 2⟩).length =
      39 - ((0x13 :: (pstrBytes ++ List.replicate 8 0 ++
        List.replicate 20 1 ++ List.replicate 20 2)).getD 0 0) ∧
    (0x13 :: (pstrBytes ++ List.replicate 8 0 ++
      List.replicate 20 1 ++ List.replicate 20 2)).length = 68 ∧
    4 ≤ (0x13 :: (pstrBytes ++ List.replicate 8 0 ++
      List.replicate 20 1 ++ List.replicate 20 2)).getD 0 0 ∧
    (0x13 :: (pstrBytes ++ List.replicate 8 0 ++
      List.replicate 20 1 ++ List.replicate 20 2)).getD 0 0 ≤ 39 ∧
    ((HandshakeMessage.peer_id
        ⟨List.replicate 20 1, List.replicate 20 2⟩).length = 20 ↔
      (0x13 :: (pstrBytes ++ List.replicate 8 0 ++
        List.replicate 20 1 ++ List.replicate 20 2)).getD 0 0 = 19) :=
  handshake_decoded_field_lengths _ _ (by decide)

/- Helper: decoding a frame produced by the encoder layout reduces to
the payload decoders. -/

theorem tryFrom_encode_frame (id : Nat) (payload : Bytes)
    (h : 1 + payload.length < 2 ^ 32) :
    PeerMessage.tryFrom
        (u32ToBeBytes (1 + payload.length) ++ [id] ++ payload) =
      if id ≤ 3 ∧ 0 < payload.length then .error .TooLong
      else
        match id with
        | 0 => .ok .Choke
        | 1 => .ok .Unchoke
        | 2 => .ok .Interested
        | 3 => .ok .NotInterested
        | 4 => (HavePayload.tryFrom payload).map .Have
        | 5 => (BitfieldPayload.tryFrom payload).map .Bitfield
        | 6 => (RequestPayload.tryFrom payload).map .Request
        | 7 => (PiecePayload.tryFrom payload).map .Piece
        | 8 => (CancelPayload.tryFrom payload).map .Cancel
        | _ => .error .InvalidMessageType := by
  simp only [PeerMessage.tryFrom, u32ToBeBytes, List.cons_append,
    List.nil_append, List.length_cons, List.getD_cons_zero,
    List.getD_cons_succ, List.drop_succ_cons, List.drop_zero]
  rw [if_neg (by omega), u32FromBeBytes_u32ToBeBytes _ h,
    if_neg (by omega)]
  by_cases hc : id ≤ 3 ∧ 0 < payload.length
  · rw [if_pos (by omega), if_pos hc]
  · rw [if_neg (by omega), if_neg hc]

/- Helper: payload-level decode-of-encode round trips. -/

theorem have_roundtrip (i : Nat) (h : i < 2 ^ 32) :
    HavePayload.tryFrom (HavePayload.toBytes ⟨i⟩) = .ok ⟨i⟩ := by
  simp only [HavePayload.toBytes, HavePayload.tryFrom, u32ToBeBytes,
    List.length_cons, List.length_nil, List.getD_cons_zero,
    List.getD_cons_succ]
  rw [if_neg (by omega), if_neg (by omega),
    u32FromBeBytes_u32ToBeBytes _ h]

theorem request_roundtrip (i b l : Nat) (hi : i < 2 ^ 32)
    (hb : b < 2 ^ 32) (hl : l < 2 ^ 32) :
    RequestPayload.tryFrom (RequestPayload.toBytes ⟨i, b, l⟩) =
      .ok ⟨i, b, l⟩ := by
  simp only [RequestPayload.toBytes, RequestPayload.tryFrom,
    u32ToBeBytes, List.cons_append, List.nil_append, List.length_cons,
    List.length_nil, List.getD_cons_zero, List.getD_cons_succ]
  rw [if_neg (by omega), if_neg (by omega),
    u32FromBeBytes_u32ToBeBytes _ hi, u32FromBeBytes_u32ToBeBytes _ hb,
    u32FromBeBytes_u32ToBeBytes _ hl]

theorem cancel_roundtrip (i b l : Nat) (hi : i < 2 ^ 32)
    (hb : b < 2 ^ 32) (hl : l < 2 ^ 32) :
    CancelPayload.tryFrom (CancelPayload.toBytes ⟨i, b, l⟩) =
      .ok ⟨i, b, l⟩ := by
  simp only [CancelPayload.toBytes, CancelPayload.tryFrom,
    u32ToBeBytes, List.cons_append, List.nil_append, List.length_cons,
    List.length_nil, List.getD_cons_zero, List.getD_cons_succ]
  rw [if_neg (by omega), if_neg (by omega),
    u32FromBeBytes_u32ToBeBytes _ hi, u32FromBeBytes_u32ToBeBytes _ hb,
    u32FromBeBytes_u32ToBeBytes _ hl]

theorem piece_roundtrip (i b : Nat) (pc : List Nat) (hi : i < 2 ^ 32)
    (hb : b < 2 ^ 32) (hpc : pc.length = 4) :
    PiecePayload.tryFrom (PiecePayload.toBytes ⟨i, b, pc⟩) =
      .ok ⟨i, b, pc⟩ := by
  rcases pc with _ | ⟨p0, _ | ⟨p1, _ | ⟨p2, _ | ⟨p3, _ | ⟨p4, t⟩⟩⟩⟩⟩ <;>
    simp only [List.length_cons, List.length_nil] at hpc <;>
    try omega
  simp only [PiecePayload.toBytes, PiecePayload.tryFrom, u32ToBeBytes,
    List.cons_append, List.nil_append, List.length_cons, List.length_nil,
    List.getD_cons_zero, List.getD_cons_succ, List.drop_succ_cons,
    List.drop_zero]
  rw [if_neg (by omega), if_neg (by omega),
    u32FromBeBytes_u32ToBeBytes _ hi, u32FromBeBytes_u32ToBeBytes _ hb]

/-- Constructibility of a PeerMessage in the Rust data model, plus the
payload-size side conditions forced on the round-trip claim by the
source: numeric fields are u32-ranged (type-guaranteed in Rust), the
Piece payload must be exactly 4 bytes (the Piece decoder accepts only
12-byte payloads) and the Bitfield payload at most 2^32 - 2 bytes (its
byte count must survive the u32 cast in the encoder). -/
def PeerMessage.wf : PeerMessage → Prop
  | .Choke | .Unchoke | .Interested | .NotInterested => True
  | .Have p => p.index < 2 ^ 32
  | .Bitfield p => p.bitfield.length ≤ 2 ^ 32 - 2
  | .Request p => p.index < 2 ^ 32 ∧ p.begin < 2 ^ 32 ∧ p.length < 2 ^ 32
  | .Piece p => p.index < 2 ^ 32 ∧ p.begin < 2 ^ 32 ∧ p.piece.length = 4
  | .Cancel p => p.index < 2 ^ 32 ∧ p.begin < 2 ^ 32 ∧ p.length < 2 ^ 32

/-- C1 counterexample: an empty-piece Piece message does not round-trip;
its encoding carries an 8-byte payload, which the 12-byte-only Piece
payload decoder rejects with TooShort. -/
theorem roundtrip_counterexample :
    PeerMessage.tryFrom (PeerMessage.toBytes (.Piece ⟨0, 0, []⟩)) =
        .error .TooShort ∧
      PeerMessage.tryFrom (PeerMessage.toBytes (.Piece ⟨0, 0, []⟩)) ≠
        .ok (.Piece ⟨0, 0, []⟩) := by
  constructor
  · decide
  · decide

/-- C1 (amended): decode of encode returns the original message for
every PeerMessage whose u32 fields are in range and which satisfies the
size conditions the code imposes: the Piece payload is exactly 4 bytes
and the Bitfield payload at most 2^32 - 2 bytes. -/
theorem decode_encode (m : PeerMessage) (hm : m.wf) :
    PeerMessage.tryFrom (PeerMessage.toBytes m) = .ok m := by
  cases m with
  | Choke => decide
  | Unchoke => decide
  | Interested => decide
  | NotInterested => decide
  | Have p =>
    obtain ⟨i⟩ := p
    simp only [PeerMessage.wf] at hm
    simp only [PeerMessage.toBytes]
    rw [show (5 : Nat) = 1 + (HavePayload.toBytes ⟨i⟩).length from rfl,
      tryFrom_encode_frame 4 _
        (by simp [HavePayload.toBytes, u32ToBeBytes])]
    rw [if_neg (by omega)]
    simp only [have_roundtrip i hm, Except.map]
  | Bitfield p =>
    obtain ⟨bf⟩ := p
    simp only [PeerMessage.wf] at hm
    simp only [PeerMessage.toBytes, BitfieldPayload.toBytes]
    rw [Nat.mod_eq_of_lt (show bf.length < 2 ^ 32 by omega),
      Nat.mod_eq_of_lt (show 1 + bf.length < 2 ^ 32 by omega),
      tryFrom_encode_frame 5 _ (by omega)]
    rw [if_neg (by omega)]
    simp only [BitfieldPayload.tryFrom, Except.map]
  | Request p =>
    obtain ⟨i, b, l⟩ := p
    simp only [PeerMessage.wf] at hm
    simp only [PeerMessage.toBytes]
    rw [show (13 : Nat) =
        1 + (u32ToBeBytes i ++ u32ToBeBytes b ++ u32ToBeBytes l).length
        from rfl, tryFrom_encode_frame 6 _ (by simp [u32ToBeBytes])]
    rw [if_neg (by omega)]
    have hr := request_roundtrip i b l hm.1 hm.2.1 hm.2.2
    simp only [RequestPayload.toBytes] at hr
    simp only [hr, Except.map]
  | Piece p =>
    obtain ⟨i, b, pc⟩ := p
    simp only [PeerMessage.wf] at hm
    simp only [PeerMessage.toBytes]
    rw [hm.2.2,
      show (9 + (4 : Nat) % 2 ^ 32) % 2 ^ 32 = 13 from by norm_num,
      show (13 : Nat) =
        1 + (u32ToBeBytes i ++ u32ToBeBytes b ++ pc).length
        from by simp [u32ToBeBytes, hm.2.2],
      tryFrom_encode_frame 7 _ (by simp [u32ToBeBytes, hm.2.2])]
    rw [if_neg (by omega)]
    have hr := piece_roundtrip i b pc hm.1 hm.2.1 hm.2.2
    simp only [PiecePayload.toBytes] at hr
    simp only [hr, Except.map]
  | Cancel p =>
    obtain ⟨i, b, l⟩ := p
    simp only [PeerMessage.wf] at hm
    simp only [PeerMessage.toBytes]
    rw [show (13 : Nat) =
        1 + (u32ToBeBytes i ++ u32ToBeBytes b ++ u32ToBeBytes l).length
        from rfl, tryFrom_encode_frame 8 _ (by simp [u32ToBeBytes])]
    rw [if_neg (by omega)]
    have hr := cancel_roundtrip i b l hm.1 hm.2.1 hm.2.2
    simp only [CancelPayload.toBytes] at hr
    simp only [hr, Except.map]

/-- Witness for C1 on a concrete Piece message with a 4-byte piece. -/
theorem decode_encode_witness :
    PeerMessage.tryFrom
        (PeerMessage.toBytes (.Piece ⟨1, 2, [9, 9, 9, 9]⟩)) =
      .ok (.Piece ⟨1, 2, [9, 9, 9, 9]⟩) :=
  decode_encode (.Piece ⟨1, 2, [9, 9, 9, 9]⟩)
    (by unfold PeerMessage.wf; refine ⟨by norm_num, by norm_num, rfl⟩)

/- Helper: full case analysis of the Piece payload decoder. -/

theorem piece_tryFrom_cases (v : Bytes) :
    (v.length < 12 → PiecePayload.tryFrom v = .error .TooShort) ∧
    (12 < v.length → PiecePayload.tryFrom v = .error .TooLong) ∧
    (v.length = 12 →
      PiecePayload.tryFrom v =
        .ok ⟨u32FromBeBytes (v.getD 0 0) (v.getD 1 0) (v.getD 2 0)
            (v.getD 3 0),
          u32FromBeBytes (v.getD 4 0) (v.getD 5 0) (v.getD 6 0)
            (v.getD 7 0),
          v.drop 8⟩ ∧ (v.drop 8).length = 4) := by
  refine ⟨fun h => ?_, fun h => ?_, fun h => ⟨?_, ?_⟩⟩
  · simp only [PiecePayload.tryFrom]
    rw [if_neg (by omega), if_pos h]
  · simp only [PiecePayload.tryFrom]
    rw [if_pos h]
  · simp only [PiecePayload.tryFrom]
    rw [if_neg (by omega), if_neg (by omega)]
  · simp only [List.length_drop, h]

/-- C2 counterexample: an 8-byte Piece payload is rejected with
TooShort, contradicting the claim that every payload of at least
8 bytes decodes successfully. -/
theorem piece_payload_min_counterexample :
    PiecePayload.tryFrom (List.replicate 8 0) = .error .TooShort := by
  decide

/-- C2 (amended): the Piece payload decoder accepts exactly 12-byte
payloads — index and begin from the two big-endian 4-byte fields and
the remaining 4 bytes verbatim as piece — and fails TooShort on fewer
than 12 bytes and TooLong on more than 12 bytes. -/
theorem piece_payload_characterisation (v : Bytes) :
    (v.length < 12 → PiecePayload.tryFrom v = .error .TooShort) ∧
    (12 < v.length → PiecePayload.tryFrom v = .error .TooLong) ∧
    (v.length = 12 →
      PiecePayload.tryFrom v =
        .ok ⟨u32FromBeBytes (v.getD 0 0) (v.getD 1 0) (v.getD 2 0)
            (v.getD 3 0),
          u32FromBeBytes (v.getD 4 0) (v.getD 5 0) (v.getD 6 0)
            (v.getD 7 0),
          v.drop 8⟩ ∧ (v.drop 8).length = 4) :=
  piece_tryFrom_cases v

/-- Witness for C2 at an 11-byte, a 13-byte and a 12-byte payload. -/
theorem piece_payload_characterisation_witness :
    PiecePayload.tryFrom (List.replicate 11 0) = .error .TooShort ∧
    PiecePayload.tryFrom (List.replicate 13 0) = .error .TooLong ∧
    PiecePayload.tryFrom [0, 0, 0, 1, 0, 0, 0, 2, 7, 7, 7, 7] =
      .ok ⟨1, 2, [7, 7, 7, 7]⟩ := by
  refine ⟨(piece_payload_characterisation _).1 (by decide),
    (piece_payload_characterisation _).2.1 (by decide), ?_⟩
  have h := ((piece_payload_characterisation
    [0, 0, 0, 1, 0, 0, 0, 2, 7, 7, 7, 7]).2.2 (by decide)).1
  exact h.trans (by decide)

/- Helpers: payload-level encode-of-decode inverses, with the payload
length each successful decode forces. -/

theorem have_inverse (v : Bytes) (hb : ∀ x ∈ v, x < 256)
    (p : HavePayload) (h : HavePayload.tryFrom v = .ok p) :
    HavePayload.toBytes p = v ∧ v.length = 4 := by
  simp only [HavePayload.tryFrom] at h
  split at h
  · simp at h
  · split at h
    · simp at h
    · have hv : v.length = 4 := by omega
      rcases v with _ | ⟨v0, _ | ⟨v1, _ | ⟨v2, _ | ⟨v3, _ | ⟨v4, t⟩⟩⟩⟩⟩ <;>
        simp only [List.length_cons, List.length_nil] at hv <;> try omega
      have h0 : v0 < 256 := hb v0 (by simp)
      have h1 : v1 < 256 := hb v1 (by simp)
      have h2 : v2 < 256 := hb v2 (by simp)
      have h3 : v3 < 256 := hb v3 (by simp)
      simp only [List.getD_cons_zero, List.getD_cons_succ,
        Except.ok.injEq] at h
      subst h
      exact ⟨u32ToBeBytes_u32FromBeBytes v0 v1 v2 v3 h0 h1 h2 h3, rfl⟩

theorem request_inverse (v : Bytes) (hb : ∀ x ∈ v, x < 256)
    (p : RequestPayload) (h : RequestPayload.tryFrom v = .ok p) :
    RequestPayload.toBytes p = v ∧ v.length = 12 := by
  simp only [RequestPayload.tryFrom] at h
  split at h
  · simp at h
  · split at h
    · simp at h
    · have hv : v.length = 12 := by omega
      rcases v with _ | ⟨v0, _ | ⟨v1, _ | ⟨v2, _ | ⟨v3, _ | ⟨v4, _ | ⟨v5,
        _ | ⟨v6, _ | ⟨v7, _ | ⟨v8, _ | ⟨v9, _ | ⟨v10, _ | ⟨v11,
        _ | ⟨v12, t⟩⟩⟩⟩⟩⟩⟩⟩⟩⟩⟩⟩⟩ <;>
        simp only [List.length_cons, List.length_nil] at hv <;> try omega
      simp only [List.getD_cons_zero, List.getD_cons_succ,
        Except.ok.injEq] at h
      subst h
      refine ⟨?_, rfl⟩
      simp only [RequestPayload.toBytes]
      rw [u32ToBeBytes_u32FromBeBytes v0 v1 v2 v3 (hb v0 (by simp))
          (hb v1 (by simp)) (hb v2 (by simp)) (hb v3 (by simp)),
        u32ToBeBytes_u32FromBeBytes v4 v5 v6 v7 (hb v4 (by simp))
          (hb v5 (by simp)) (hb v6 (by simp)) (hb v7 (by simp)),
        u32ToBeBytes_u32FromBeBytes v8 v9 v10 v11 (hb v8 (by simp))
          (hb v9 (by simp)) (hb v10 (by simp)) (hb v11 (by simp))]
      rfl

theorem cancel_inverse (v : Bytes) (hb : ∀ x ∈ v, x < 256)
    (p : CancelPayload) (h : CancelPayload.tryFrom v = .ok p) :
    CancelPayload.toBytes p = v ∧ v.length = 12 := by
  simp only [CancelPayload.tryFrom] at h
  split at h
  · simp at h
  · split at h
    · simp at h
    · have hv : v.length = 12 := by omega
      rcases v with _ | ⟨v0, _ | ⟨v1, _ | ⟨v2, _ | ⟨v3, _ | ⟨v4, _ | ⟨v5,
        _ | ⟨v6, _ | ⟨v7, _ | ⟨v8, _ | ⟨v9, _ | ⟨v10, _ | ⟨v11,
        _ | ⟨v12, t⟩⟩⟩⟩⟩⟩⟩⟩⟩⟩⟩⟩⟩ <;>
        simp only [List.length_cons, List.length_nil] at hv <;> try omega
      simp only [List.getD_cons_zero, List.getD_cons_succ,
        Except.ok.injEq] at h
      subst h
      refine ⟨?_, rfl⟩
      simp only [CancelPayload.toBytes]
      rw [u32ToBeBytes_u32FromBeBytes v0 v1 v2 v3 (hb v0 (by simp))
          (hb v1 (by simp)) (hb v2 (by simp)) (hb v3 (by simp)),
        u32ToBeBytes_u32FromBeBytes v4 v5 v6 v7 (hb v4 (by simp))
          (hb v5 (by simp)) (hb v6 (by simp)) (hb v7 (by simp)),
        u32ToBeBytes_u32FromBeBytes v8 v9 v10 v11 (hb v8 (by simp))
          (hb v9 (by simp)) (hb v10 (by simp)) (hb v11 (by simp))]
      rfl

theorem piece_inverse (v : Bytes) (hb : ∀ x ∈ v, x < 256)
    (p : PiecePayload) (h : PiecePayload.tryFrom v = .ok p) :
    PiecePayload.toBytes p = v ∧ v.length = 12 := by
  simp only [PiecePayload.tryFrom] at h
  split at h
  · simp at h
  · split at h
    · simp at h
    · have hv : v.length = 12 := by omega
      rcases v with _ | ⟨v0, _ | ⟨v1, _ | ⟨v2, _ | ⟨v3, _ | ⟨v4, _ | ⟨v5,
        _ | ⟨v6, _ | ⟨v7, _ | ⟨v8, _ | ⟨v9, _ | ⟨v10, _ | ⟨v11,
        _ | ⟨v12, t⟩⟩⟩⟩⟩⟩⟩⟩⟩⟩⟩⟩⟩ <;>
        simp only [List.length_cons, List.length_nil] at hv <;> try omega
      simp only [List.getD_cons_zero, List.getD_cons_succ,
        List.drop_succ_cons, List.drop_zero, Except.ok.injEq] at h
      subst h
      refine ⟨?_, rfl⟩
      simp only [PiecePayload.toBytes]
      rw [u32ToBeBytes_u32FromBeBytes v0 v1 v2 v3 (hb v0 (by simp))
          (hb v1 (by simp)) (hb v2 (by simp)) (hb v3 (by simp)),
        u32ToBeBytes_u32FromBeBytes v4 v5 v6 v7 (hb v4 (by simp))
          (hb v5 (by simp)) (hb v6 (by simp)) (hb v7 (by simp))]
      rfl

/-- C6: encode is a left inverse of decode — whenever PeerMessage
decode succeeds on a byte sequence, re-encoding the decoded message
reproduces the input bytes exactly. -/
theorem encode_decode (bs : Bytes) (hb : ∀ x ∈ bs, x < 256)
    (m : PeerMessage) (h : PeerMessage.tryFrom bs = .ok m) :
    PeerMessage.toBytes m = bs := by
  simp only [PeerMessage.tryFrom] at h
  split at h
  · simp at h
  · rename_i hlen
    rcases bs with _ | ⟨b0, _ | ⟨b1, _ | ⟨b2, _ | ⟨b3, _ | ⟨id, rest⟩⟩⟩⟩⟩ <;>
      simp only [List.length_cons, List.length_nil] at hlen <;> try omega
    have h0 : b0 < 256 := hb b0 (by simp)
    have h1 : b1 < 256 := hb b1 (by simp)
    have h2 : b2 < 256 := hb b2 (by simp)
    have h3 : b3 < 256 := hb b3 (by simp)
    have hbrest : ∀ x ∈ rest, x < 256 := fun x hx => hb x (by simp [hx])
    simp only [List.length_cons, List.getD_cons_zero, List.getD_cons_succ,
      List.drop_succ_cons, List.drop_zero, u32FromBeBytes] at h
    split at h
    · simp at h
    · rename_i hwl
      split at h
      · simp at h
      · rename_i htl
        split at h
        · -- id = 0, Choke
          simp only [Except.ok.injEq] at h
          subst h
          have hr : rest = [] := List.length_eq_zero.mp (by omega)
          subst hr
          simp only [List.length_nil] at hwl
          simp only [PeerMessage.toBytes, u32ToBeBytes, List.cons_append,
            List.nil_append, List.append_nil, List.cons.injEq, and_true]
          omega
        · -- id = 1, Unchoke
          simp only [Except.ok.injEq] at h
          subst h
          have hr : rest = [] := List.length_eq_zero.mp (by omega)
          subst hr
          simp only [List.length_nil] at hwl
          simp only [PeerMessage.toBytes, u32ToBeBytes, List.cons_append,
            List.nil_append, List.append_nil, List.cons.injEq, and_true]
          omega
        · -- id = 2, Interested
          simp only [Except.ok.injEq] at h
          subst h
          have hr : rest = [] := List.length_eq_zero.mp (by omega)
          subst hr
          simp only [List.length_nil] at hwl
          simp only [PeerMessage.toBytes, u32ToBeBytes, List.cons_append,
            List.nil_append, List.append_nil, List.cons.injEq, and_true]
          omega
        · -- id = 3, NotInterested
          simp only [Except.ok.injEq] at h
          subst h
          have hr : rest = [] := List.length_eq_zero.mp (by omega)
          subst hr
          simp only [List.length_nil] at hwl
          simp only [PeerMessage.toBytes, u32ToBeBytes, List.cons_append,
            List.nil_append, List.append_nil, List.cons.injEq, and_true]
          omega
        · -- id = 4, Have
          cases hres : HavePayload.tryFrom rest with
          | error e =>
            rw [hres] at h
            simp [Except.map] at h
          | ok p =>
            rw [hres] at h
            simp only [Except.map, Except.ok.injEq] at h
            subst h
            obtain ⟨hinv, hlen4⟩ := have_inverse rest hbrest p hres
            simp only [PeerMessage.toBytes]
            rw [hinv]
            simp only [u32ToBeBytes, List.cons_append, List.nil_append,
              List.cons.injEq, and_true]
            omega
        · -- id = 5, Bitfield
          simp only [BitfieldPayload.tryFrom, Except.map,
            Except.ok.injEq] at h
          subst h
          simp only [PeerMessage.toBytes, BitfieldPayload.toBytes]
          rw [Nat.mod_eq_of_lt (show rest.length < 2 ^ 32 by omega),
            Nat.mod_eq_of_lt (show 1 + rest.length < 2 ^ 32 by omega)]
          simp only [u32ToBeBytes, List.cons_append, List.nil_append,
            List.cons.injEq, and_true]
          omega
        · -- id = 6, Request
          cases hres : RequestPayload.tryFrom rest with
          | error e =>
            rw [hres] at h
            simp [Except.map] at h
          | ok p =>
            rw [hres] at h
            simp only [Except.map, Except.ok.injEq] at h
            subst h
            obtain ⟨hinv, hlen12⟩ := request_inverse rest hbrest p hres
            simp only [RequestPayload.toBytes] at hinv
            simp only [PeerMessage.toBytes]
            rw [hinv]
            simp only [u32ToBeBytes, List.cons_append, List.nil_append,
              List.cons.injEq, and_true]
            omega
        · -- id = 7, Piece
          cases hres : PiecePayload.tryFrom rest with
          | error e =>
            rw [hres] at h
            simp [Except.map] at h
          | ok p =>
            rw [hres] at h
            simp only [Except.map, Except.ok.injEq] at h
            subst h
            obtain ⟨hinv, hlen12⟩ := piece_inverse rest hbrest p hres
            simp only [PiecePayload.toBytes] at hinv
            have hp4 : p.piece.length = 4 := by
              have hc := congrArg List.length hinv
              simp only [List.length_append, u32ToBeBytes,
                List.length_cons, List.length_nil] at hc
              omega
            simp only [PeerMessage.toBytes]
            rw [hinv, hp4]
            simp only [u32ToBeBytes, List.cons_append, List.nil_append,
              List.cons.injEq, and_true]
            omega
        · -- id = 8, Cancel
          cases hres : CancelPayload.tryFrom rest with
          | error e =>
            rw [hres] at h
            simp [Except.map] at h
          | ok p =>
            rw [hres] at h
            simp only [Except.map, Except.ok.injEq] at h
            subst h
            obtain ⟨hinv, hlen12⟩ := cancel_inverse rest hbrest p hres
            simp only [CancelPayload.toBytes] at hinv
            simp only [PeerMessage.toBytes]
            rw [hinv]
            simp only [u32ToBeBytes, List.cons_append, List.nil_append,
              List.cons.injEq, and_true]
            omega
        · -- unknown id
          simp at h

/-- Witness for C6 at the Have frame of the repository test suite. -/
theorem encode_decode_witness :
    PeerMessage.toBytes (.Have ⟨255⟩) =
      [0x00, 0x00, 0x00, 0x05, 0x04, 0x00, 0x00, 0x00, 0xff] :=
  encode_decode [0x00, 0x00, 0x00, 0x05, 0x04, 0x00, 0x00, 0x00, 0xff]
    (by decide) (.Have ⟨255⟩) (by decide)

/- Helper: the u32 wrap-around of the encoded length field for a
Bitfield payload of 2^32 - 1 bytes, payload kept abstract. -/

theorem bitfield_wrap_encode (bf : List Nat)
    (hlen : bf.length = 2 ^ 32 - 1) :
    u32FromBeBytes ((PeerMessage.toBytes (.Bitfield ⟨bf⟩)).getD 0 0)
        ((PeerMessage.toBytes (.Bitfield ⟨bf⟩)).getD 1 0)
        ((PeerMessage.toBytes (.Bitfield ⟨bf⟩)).getD 2 0)
        ((PeerMessage.toBytes (.Bitfield ⟨bf⟩)).getD 3 0) = 0 ∧
      (PeerMessage.toBytes (.Bitfield ⟨bf⟩)).length - 4 = 2 ^ 32 := by
  have he : PeerMessage.toBytes (.Bitfield ⟨bf⟩) =
      u32ToBeBytes 0 ++ [5] ++ bf := by
    simp only [PeerMessage.toBytes, BitfieldPayload.toBytes, hlen]
    norm_num
  rw [he]
  constructor
  · simp only [u32ToBeBytes, List.cons_append, List.nil_append,
      List.getD_cons_zero, List.getD_cons_succ, u32FromBeBytes]
    norm_num
  · simp only [u32ToBeBytes, List.cons_append, List.nil_append,
      List.length_cons, hlen]
    norm_num

/-- C7 counterexample: for a Bitfield message with 2^32 - 1 payload
bytes, the encoder's u32 length field wraps around to 0, so the first
four encoded bytes read back as 0 while the encoding is 2^32 + 4 bytes
long — the claimed equality with len - 4 fails on this constructible
message. -/
theorem frame_length_counterexample :
    u32FromBeBytes
        ((PeerMessage.toBytes
          (.Bitfield ⟨List.replicate (2 ^ 32 - 1) 0⟩)).getD 0 0)
        ((PeerMessage.toBytes
          (.Bitfield ⟨List.replicate (2 ^ 32 - 1) 0⟩)).getD 1 0)
        ((PeerMessage.toBytes
          (.Bitfield ⟨List.replicate (2 ^ 32 - 1) 0⟩)).getD 2 0)
        ((PeerMessage.toBytes
          (.Bitfield ⟨List.replicate (2 ^ 32 - 1) 0⟩)).getD 3 0) = 0 ∧
      (PeerMessage.toBytes
          (.Bitfield ⟨List.replicate (2 ^ 32 - 1) 0⟩)).length - 4 =
        2 ^ 32 :=
  bitfield_wrap_encode _ (List.length_replicate _ _)

/-- C7 (amended): the first four encoded bytes, read big-endian, equal
encode(m).len() - 4 for every message whose payload byte count survives
the encoder's u32 cast (Bitfield payload at most 2^32 - 2 bytes, Piece
piece at most 2^32 - 10 bytes); the four bodyless variants and
Have/Request/Cancel satisfy it unconditionally. -/
theorem frame_length_correct (m : PeerMessage)
    (hbf : ∀ p, m = .Bitfield p → p.bitfield.length + 1 < 2 ^ 32)
    (hpc : ∀ p, m = .Piece p → p.piece.length + 9 < 2 ^ 32) :
    u32FromBeBytes ((PeerMessage.toBytes m).getD 0 0)
        ((PeerMessage.toBytes m).getD 1 0)
        ((PeerMessage.toBytes m).getD 2 0)
        ((PeerMessage.toBytes m).getD 3 0) =
      (PeerMessage.toBytes m).length - 4 := by
  cases m with
  | Choke => decide
  | Unchoke => decide
  | Interested => decide
  | NotInterested => decide
  | Have p =>
    simp only [PeerMessage.toBytes, HavePayload.toBytes, u32ToBeBytes,
      List.cons_append, List.nil_append, List.getD_cons_zero,
      List.getD_cons_succ, List.length_cons, List.length_nil,
      u32FromBeBytes]
    omega
  | Bitfield p =>
    have hlt := hbf p rfl
    simp only [PeerMessage.toBytes, BitfieldPayload.toBytes]
    rw [Nat.mod_eq_of_lt (show p.bitfield.length < 2 ^ 32 by omega),
      Nat.mod_eq_of_lt (show 1 + p.bitfield.length < 2 ^ 32 by omega)]
    simp only [u32ToBeBytes, List.cons_append, List.nil_append,
      List.getD_cons_zero, List.getD_cons_succ, List.length_cons,
      u32FromBeBytes]
    omega
  | Request p =>
    simp only [PeerMessage.toBytes, u32ToBeBytes, List.cons_append,
      List.nil_append, List.getD_cons_zero, List.getD_cons_succ,
      List.length_cons, List.length_nil, u32FromBeBytes]
    omega
  | Piece p =>
    have hlt := hpc p rfl
    simp only [PeerMessage.toBytes]
    rw [Nat.mod_eq_of_lt (show p.piece.length < 2 ^ 32 by omega),
      Nat.mod_eq_of_lt (show 9 + p.piece.length < 2 ^ 32 by omega)]
    simp only [u32ToBeBytes, List.cons_append, List.nil_append,
      List.getD_cons_zero, List.getD_cons_succ, List.length_cons,
      List.length_append, u32FromBeBytes]
    omega
  | Cancel p =>
    simp only [PeerMessage.toBytes, u32ToBeBytes, List.cons_append,
      List.nil_append, List.getD_cons_zero, List.getD_cons_succ,
      List.length_cons, List.length_nil, u32FromBeBytes]
    omega

/-- Witness for C7 at a 3-byte Bitfield message. -/
theorem frame_length_correct_witness :
    u32FromBeBytes
        ((PeerMessage.toBytes (.Bitfield ⟨[1, 2, 3]⟩)).getD 0 0)
        ((PeerMessage.toBytes (.Bitfield ⟨[1, 2, 3]⟩)).getD 1 0)
        ((PeerMessage.toBytes (.Bitfield ⟨[1, 2, 3]⟩)).getD 2 0)
        ((PeerMessage.toBytes (.Bitfield ⟨[1, 2, 3]⟩)).getD 3 0) =
      (PeerMessage.toBytes (.Bitfield ⟨[1, 2, 3]⟩)).length - 4 :=
  frame_length_correct (.Bitfield ⟨[1, 2, 3]⟩)
    (by intro p hp; simp only [PeerMessage.Bitfield.injEq] at hp
        subst hp; decide)
    (by intro p hp; simp at hp)

/- Helpers for C9: Piece payload decode success forces a 4-byte piece,
and PeerMessage decode reaching a Piece goes through the Piece payload
decoder. -/

theorem piece_tryFrom_ok_length (v : Bytes) (p : PiecePayload)
    (h : PiecePayload.tryFrom v = .ok p) : p.piece.length = 4 := by
  simp only [PiecePayload.tryFrom] at h
  split at h
  · simp at h
  · split at h
    · simp at h
    · simp only [Except.ok.injEq] at h
      subst h
      simp only [List.length_drop]
      omega

theorem tryFrom_piece_inversion (bs : Bytes) (p : PiecePayload)
    (h : PeerMessage.tryFrom bs = .ok (.Piece p)) :
    PiecePayload.tryFrom (bs.drop 5) = .ok p := by
  simp only [PeerMessage.tryFrom] at h
  split at h
  · simp at h
  · split at h
    · simp at h
    · split at h
      · simp at h
      · split at h
        · simp at h
        · simp at h
        · simp at h
        · simp at h
        · cases hres : HavePayload.tryFrom (bs.drop 5) <;>
            rw [hres] at h <;> simp [Except.map] at h
        · simp [BitfieldPayload.tryFrom, Except.map] at h
        · cases hres : RequestPayload.tryFrom (bs.drop 5) <;>
            rw [hres] at h <;> simp [Except.map] at h
        · cases hres : PiecePayload.tryFrom (bs.drop 5) with
          | error e =>
            rw [hres] at h
            simp [Except.map] at h
          | ok q =>
            rw [hres] at h
            simp only [Except.map, Except.ok.injEq,
              PeerMessage.Piece.injEq] at h
            subst h
            rfl
        · cases hres : CancelPayload.tryFrom (bs.drop 5) <;>
            rw [hres] at h <;> simp [Except.map] at h
        · simp at h

/-- C9: every Piece message produced by a successful PeerMessage decode
carries a piece field of exactly 4 bytes, because the Piece payload
decoder accepts exactly 12-byte payloads — rejecting shorter payloads
with TooShort and longer ones with TooLong. -/
theorem decoded_piece_is_4_bytes :
    (∀ bs p, PeerMessage.tryFrom bs = .ok (.Piece p) →
      p.piece.length = 4) ∧
    (∀ v : Bytes, v.length < 12 →
      PiecePayload.tryFrom v = .error .TooShort) ∧
    (∀ v : Bytes, 12 < v.length →
      PiecePayload.tryFrom v = .error .TooLong) :=
  ⟨fun bs p h =>
      piece_tryFrom_ok_length _ p (tryFrom_piece_inversion bs p h),
    fun v hv => (piece_tryFrom_cases v).1 hv,
    fun v hv => (piece_tryFrom_cases v).2.1 hv⟩

/-- Witness for C9 at the Piece frame of the repository test suite and
at a 7-byte and a 14-byte Piece payload. -/
theorem decoded_piece_is_4_bytes_witness :
    (PiecePayload.piece ⟨33, 2048, [0, 0, 1, 0]⟩).length = 4 ∧
    PiecePayload.tryFrom (List.replicate 7 0) = .error .TooShort ∧
    PiecePayload.tryFrom (List.replicate 14 0) = .error .TooLong :=
  ⟨decoded_piece_is_4_bytes.1
      [0x00, 0x00, 0x00, 0x0d, 0x07, 0x00, 0x00, 0x00, 0x21, 0x00,
        0x00, 0x08, 0x00, 0x00, 0x00, 0x01, 0x00]
      ⟨33, 2048, [0, 0, 1, 0]⟩ (by decide),
    decoded_piece_is_4_bytes.2.1 _ (by decide),
    decoded_piece_is_4_bytes.2.2 _ (by decide)⟩

end Rainyday
